import Mathlib

/-!
Shallow embedding of `src/deserialize.ts` (the `deserialize` function of the
superserial repository) and proofs about it.

Modelling conventions:
* The input string `code` is a `List Char`; the cursor is a `Nat` position and
  `buf[pos]` (which in JavaScript yields `undefined` past the end) is
  `buf[pos]? : Option Char`.
* JavaScript objects and arrays live on an explicit heap (`Heap`), addressed by
  allocation order, so that the in-place mutation performed by `resolveRef`
  and object identity (cycles, sharing) are faithfully represented.  A freshly
  parsed statement is a tree: the parser allocates one cell per `{...}` / `[...]`
  production, exactly as the JavaScript allocates one object per production.
* JavaScript numbers are modelled in sign-magnitude form `sNum (neg : Bool) (mag : DecQ)`
  where `DecQ` is the exact (unnormalised) scaled-decimal value
  `mant * 10 ^ exp` of the lexed literal (`+result` in the source); this keeps
  the sign of `-0` (`-1 * 0` is negative zero in JS) without modelling
  floating-point rounding, which no statement here depends on.
  `BigInt(...)` is modelled exactly as `ℤ`.
* `String.fromCharCode` is modelled by `Char.ofNat` (UTF-16 code units are
  idealised to scalar values; no statement here involves surrogates).
* `new RegExp(pattern, flags)` is modelled by `mkRegExp`, which records the
  pattern and the set of flags occurring in the flag string, matching the
  observable pattern/flag set of the compiled JS regexp.
* The unbounded `while (1)` loops of the source and the recursion of
  `parseJson`/`resolveRef` are driven by a fuel parameter; a result of `og`
  ("out of gas") for every fuel value means the JavaScript code does not
  terminate (its cursor or call stack grows without bound).
* `options.classes` is modelled as the list of registered class names; the
  prototype attached by `Object.setPrototypeOf` is recorded as a tag on the
  object cell.  (`console.warn` is a side effect with no bearing on the result
  and is not modelled.)
-/

namespace Superserial

/-- `WS_CHARS` of the source. -/
def isWS (c : Char) : Bool :=
  c = '\r' ∨ c = '\n' ∨ c = '\t' ∨ c = ' '

/-- `NUM_CHARS` of the source (the ten decimal digit characters). -/
def isNum (c : Char) : Bool :=
  48 ≤ c.toNat ∧ c.toNat ≤ 57

/-- `STRING_ESC` of the source: the single-character escape table. -/
def stringEsc (c : Char) : Option Char :=
  match c with
  | '"' => some '"'
  | '\\' => some '\\'
  | 'b' => some (Char.ofNat 8)
  | 'f' => some (Char.ofNat 12)
  | 'n' => some '\n'
  | 'r' => some '\r'
  | 't' => some '\t'
  | _ => none

/-- A compiled regular expression: `new RegExp(pattern, flags)` keeps the
pattern and the (order-insensitive) set of flags of the flag string. -/
structure JsRegExp where
  pattern : List Char
  flagI : Bool
  flagM : Bool
  flagG : Bool
deriving DecidableEq, Repr

/-- `new RegExp(pattern, flags)`. -/
def mkRegExp (pattern : List Char) (flags : List Char) : JsRegExp :=
  ⟨pattern, flags.contains 'i', flags.contains 'm', flags.contains 'g'⟩

/-- The exact value of a decimal number literal, as the integer mantissa (the
digits of the literal with the decimal point removed) times ten to an integer
exponent.  This is the exact rational `mant * 10 ^ exp` denoted by the text the
lexer collected, kept in unnormalised scaled-decimal form.  (Two runs compared
by a theorem below always lex the same literal text, so structural equality is
the right notion.) -/
structure DecQ where
  mant : Nat
  exp : Int
deriving DecidableEq, Repr

/-- A JavaScript value as produced by the deserializer.  Objects and arrays
are heap addresses (`sPtr`); `sRef` is the tagged closure produced by
`parseRef` (the deferred-reference placeholder). -/
inductive SVal where
  | sNull
  | sUndef
  | sBool (b : Bool)
  | sNaN
  | sInf (neg : Bool)
  | sNum (neg : Bool) (mag : DecQ)
  | sBigInt (i : ℤ)
  | sStr (s : List Char)
  | sRegex (r : JsRegExp)
  | sRef (idx : Nat)
  | sPtr (a : Nat)
deriving DecidableEq, Repr

/-- A heap cell: a JS array or a JS object (with the optional class tag
attached by `Object.setPrototypeOf`, and fields in insertion order). -/
inductive Cell where
  | cArr (elems : List SVal)
  | cObj (tag : Option (List Char)) (fields : List (List Char × SVal))
deriving DecidableEq, Repr

/-- The heap: cells addressed by allocation order. -/
abbrev Heap := List Cell

/-- Parser state: cursor position and heap.  The buffer is immutable and is
passed separately. -/
structure St where
  pos : Nat
  heap : Heap
deriving DecidableEq, Repr

/-- Advance the cursor (`pos++` etc.). -/
def adv (s : St) (n : Nat) : St := { s with pos := s.pos + n }

/-- The `SyntaxError` built by `error()`: it reports `buf[pos]` (`none` is the
"Unexpected end" case) and the position. -/
structure SynErr where
  tok : Option Char
  pos : Nat
deriving DecidableEq, Repr

/-- `error()` of the source. -/
def mkErr (buf : List Char) (s : St) : SynErr :=
  ⟨buf[s.pos]?, s.pos⟩

/-- Result of a parsing function: success with a value and a new state,
a thrown `SyntaxError`, or out of gas (`og`, marking divergence). -/
inductive PR (α : Type) where
  | ok (a : α) (s : St)
  | err (e : SynErr)
  | og
deriving DecidableEq, Repr

/-- Sequencing of parse results. -/
def PR.andThen {α β : Type} (x : PR α) (f : α → St → PR β) : PR β :=
  match x with
  | .ok a s => f a s
  | .err e => .err e
  | .og => .og

/-- Length of the whitespace run at the head of a list (the distance moved by
the `while` loop of `white()`). -/
def wsRun : List Char → Nat
  | [] => 0
  | c :: t => if isWS c then wsRun t + 1 else 0

/-- `white()` of the source: skip whitespace from the current position. -/
def white (buf : List Char) (s : St) : St :=
  { s with pos := s.pos + wsRun (buf.drop s.pos) }

/-- `consume(char)` of the source: match an exact literal, advancing one
character at a time; a mismatch (including end of input) throws `error()`. -/
def consumeLit (buf : List Char) (s : St) : List Char → PR Unit
  | [] => .ok () s
  | c :: cs =>
    match buf[s.pos]? with
    | some b => if b = c then consumeLit buf (adv s 1) cs else .err (mkErr buf s)
    | none => .err (mkErr buf s)

/-- The maximal run of decimal digits at the head of a list (the digit-collecting
`while` loops of the source). -/
def digitsPrefix : List Char → List Char
  | [] => []
  | c :: t => if isNum c then c :: digitsPrefix t else []

/-- Numeric value of a digit string (`+result` on an all-digit string, and the
digit accumulation of `BigInt`). -/
def digitsVal (ds : List Char) : Nat :=
  ds.foldl (fun a c => 10 * a + (c.toNat - 48)) 0

/-- Identifier start characters of `parseName` (`A`-`Z`, `a`-`z`). -/
def isNameStart (c : Char) : Bool :=
  (65 ≤ c.toNat ∧ c.toNat ≤ 90) ∨ (97 ≤ c.toNat ∧ c.toNat ≤ 122)

/-- Identifier continuation characters of `parseName` (letters, digits, `_`).
(The `while ((chartCode = buf.charCodeAt(pos)))` guard also stops at a NUL
character, but NUL is not in these ranges, so the two exits coincide.) -/
def isNameCont (c : Char) : Bool :=
  (65 ≤ c.toNat ∧ c.toNat ≤ 90) ∨ (97 ≤ c.toNat ∧ c.toNat ≤ 122) ∨
    (48 ≤ c.toNat ∧ c.toNat ≤ 57) ∨ c.toNat = 95

/-- The maximal run of identifier-continuation characters at the head of a list. -/
def namePrefix : List Char → List Char
  | [] => []
  | c :: t => if isNameCont c then c :: namePrefix t else []

/-- `parseName()` of the source: an optional leading letter followed by the
maximal run of identifier characters; a non-letter first character yields the
empty name without advancing. -/
def parseName (buf : List Char) (s : St) : List Char × St :=
  match buf[s.pos]? with
  | some c =>
    if isNameStart c then
      let rest := namePrefix (buf.drop (s.pos + 1))
      (c :: rest, adv s (1 + rest.length))
    else ([], s)
  | none => ([], s)

/-- `parseRef()` of the source: skip `$`, read the digit run, and build the
tagged lookup closure (the index of `+""` on the empty run is `0`). -/
def parseRef (buf : List Char) (s : St) : PR SVal :=
  let s1 := adv s 1
  let ds := digitsPrefix (buf.drop s1.pos)
  .ok (.sRef (digitsVal ds)) (adv s1 ds.length)

/-- Split an all-digit prefix from a list (used to read back the decimal text
accumulated in `result`). -/
def spanDigits : List Char → List Char × List Char
  | [] => ([], [])
  | c :: t =>
    if isNum c then
      let (a, b) := spanDigits t
      (c :: a, b)
    else ([], c :: t)

/-- Value of an exponent suffix (an optional sign and digits). -/
def expVal : List Char → ℤ
  | '-' :: t => -(digitsVal t : ℤ)
  | '+' :: t => (digitsVal t : ℤ)
  | t => (digitsVal t : ℤ)

/-- The exact numeric value of the decimal text collected by `parseNumber`
(`digits ('.' digits)? ([eE] [+-]? digits)?`), i.e. JavaScript `+result`
idealised to an exact rational. -/
def decVal (s : List Char) : DecQ :=
  let (ip, r1) := spanDigits s
  let (fp, r2) :=
    match r1 with
    | '.' :: t => spanDigits t
    | _ => ([], r1)
  let e : ℤ :=
    match r2 with
    | 'e' :: t => expVal t
    | 'E' :: t => expVal t
    | _ => 0
  ⟨digitsVal (ip ++ fp), e - fp.length⟩

/-- Whether an optional character is a decimal digit (`NUM_CHARS.has(buf[pos])`:
false past the end of the input). -/
def isNumO : Option Char → Bool
  | some c => isNum c
  | none => false

/-- `parseNumber()` of the source.  The digit-collecting loops are the maximal
digit runs; the final value is `BigInt(±result)` on an `n` suffix and
`isNeg ? -1 * +result : +result` otherwise. -/
def parseNumber (buf : List Char) (s0 : St) : PR SVal :=
  let negp : Bool × St :=
    if buf[s0.pos]? = some '-' then (true, adv s0 1) else (false, s0)
  let isNeg := negp.1
  let s := negp.2
  if buf[s.pos]? = some 'I' then
    (consumeLit buf (adv s 1) ['n', 'f', 'i', 'n', 'i', 't', 'y']).andThen fun _ s1 =>
      .ok (.sInf isNeg) s1
  else if isNumO buf[s.pos]? then
    let ds := digitsPrefix (buf.drop s.pos)
    let s1 := adv s ds.length
    if buf[s1.pos]? = some 'n' then
      .ok (.sBigInt (if isNeg then -(digitsVal ds : ℤ) else (digitsVal ds : ℤ))) (adv s1 1)
    else
      -- optional fraction part
      let fracRes : PR (List Char) :=
        if buf[s1.pos]? = some '.' then
          let s2 := adv s1 1
          if isNumO buf[s2.pos]? then
            let fs := digitsPrefix (buf.drop s2.pos)
            .ok (ds ++ '.' :: fs) (adv s2 fs.length)
          else .err (mkErr buf s2)
        else .ok ds s1
      fracRes.andThen fun res s3 =>
        -- optional exponent part
        let expRes : PR (List Char) :=
          if buf[s3.pos]? = some 'e' ∨ buf[s3.pos]? = some 'E' then
            let e := (buf[s3.pos]?).getD 'e'
            let s4 := adv s3 1
            let signp : List Char × St :=
              if buf[s4.pos]? = some '-' then ([e, '-'], adv s4 1)
              else if buf[s4.pos]? = some '+' then ([e, '+'], adv s4 1)
              else ([e], s4)
            let s5 := signp.2
            if isNumO buf[s5.pos]? then
              let es := digitsPrefix (buf.drop s5.pos)
              .ok (res ++ signp.1 ++ es) (adv s5 es.length)
            else .err (mkErr buf s5)
          else .ok res s3
        expRes.andThen fun res2 s6 => .ok (.sNum isNeg (decVal res2)) s6
  else .err (mkErr buf s)

/-- The four-digit hex scan of the `\u` escape: `parseInt(buf[pos], 16)` on a
single character, `NaN` (failure) when the character is not a hex digit or the
input is exhausted. -/
def hexVal : Option Char → Option Nat
  | some c =>
    if 48 ≤ c.toNat ∧ c.toNat ≤ 57 then some (c.toNat - 48)
    else if 97 ≤ c.toNat ∧ c.toNat ≤ 102 then some (c.toNat - 87)
    else if 65 ≤ c.toNat ∧ c.toNat ≤ 70 then some (c.toNat - 55)
    else none
  | none => none

/-- The `for (let i = 0; i < 4; i++)` hex loop of the `\u` escape. -/
def hex4 (buf : List Char) (s : St) : Nat → Nat → PR Nat
  | 0, acc => .ok acc s
  | Nat.succ k, acc =>
    match hexVal (buf[s.pos]?) with
    | some h => hex4 buf (adv s 1) k (acc * 16 + h)
    | none => .err (mkErr buf s)

/-- `result += buf[pos++]`: append the current character (or the text
`"undefined"` past the end of the input, as JavaScript string concatenation of
`undefined` does) and advance. -/
def appendCur (buf : List Char) (s : St) (acc : List Char) : List Char × St :=
  match buf[s.pos]? with
  | some c => (acc ++ [c], adv s 1)
  | none => (acc ++ "undefined".data, adv s 1)

/-- The escape branch of the `parseString` loop (after the `\` was consumed):
`\u` plus four hex digits, or a single-character escape, or `error()`. -/
def stringEscStep (buf : List Char) (s1 : St) (acc : List Char) :
    PR (List Char × St) :=
  if buf[s1.pos]? = some 'u' then
    (hex4 buf (adv s1 1) 4 0).andThen fun code s2 =>
      .ok (acc ++ [Char.ofNat code], s2) s2
  else
    match buf[s1.pos]? with
    | some c =>
      match stringEsc c with
      | some esc => .ok (acc ++ [esc], adv s1 1) (adv s1 1)
      | none => .err (mkErr buf s1)
    | none => .err (mkErr buf s1)

/-- The `while (1)` body of `parseString`.  Past the end of the buffer the
statement `result += buf[pos++]` of the source appends the text `"undefined"` and keeps
advancing the cursor, which is modelled verbatim. -/
def parseStringLoop (buf : List Char) : Nat → St → List Char → PR (List Char)
  | 0, _, _ => .og
  | Nat.succ f, s, acc =>
    if buf[s.pos]? = some '"' then .ok acc (adv s 1)
    else if buf[s.pos]? = some '\\' then
      (stringEscStep buf (adv s 1) acc).andThen fun p _ =>
        parseStringLoop buf f p.2 p.1
    else
      let p := appendCur buf s acc
      parseStringLoop buf f p.2 p.1

/-- `parseString()` of the source: unconditionally skip the (assumed) opening
quote, then run the scan loop. -/
def parseString (buf : List Char) (fuel : Nat) (s : St) : PR (List Char) :=
  parseStringLoop buf fuel (adv s 1) []

/-- The flag `switch` of `parseRegExp`, entered after the closing `/`.  Each
branch consumes the flags it matches and builds `new RegExp(result, flags)`
with exactly the flag string of the corresponding source branch. -/
def flagSwitch (buf : List Char) (s : St) (p : List Char) : PR SVal :=
  match buf[s.pos]? with
  | some 'i' =>
    let s1 := adv s 1
    match buf[s1.pos]? with
    | some 'm' =>
      let s2 := adv s1 1
      match buf[s2.pos]? with
      | some 'g' => .ok (.sRegex (mkRegExp p ['i', 'm', 'g'])) (adv s2 1)
      | _ => .ok (.sRegex (mkRegExp p ['i', 'm'])) s2
    | some 'g' =>
      let s2 := adv s1 1
      match buf[s2.pos]? with
      | some 'm' => .ok (.sRegex (mkRegExp p ['i', 'g', 'm'])) (adv s2 1)
      | _ => .ok (.sRegex (mkRegExp p ['i', 'g'])) s2
    | _ => .ok (.sRegex (mkRegExp p ['i'])) s1
  | some 'm' =>
    let s1 := adv s 1
    match buf[s1.pos]? with
    | some 'i' =>
      let s2 := adv s1 1
      match buf[s2.pos]? with
      | some 'g' => .ok (.sRegex (mkRegExp p ['m', 'i', 'g'])) (adv s2 1)
      | _ => .ok (.sRegex (mkRegExp p ['m', 'i'])) s2
    | some 'g' =>
      let s2 := adv s1 1
      match buf[s2.pos]? with
      | some 'i' => .ok (.sRegex (mkRegExp p ['m', 'g', 'i'])) (adv s2 1)
      | _ => .ok (.sRegex (mkRegExp p ['m', 'g'])) s2
    | _ => .ok (.sRegex (mkRegExp p ['m'])) s1
  | some 'g' =>
    let s1 := adv s 1
    match buf[s1.pos]? with
    | some 'm' =>
      let s2 := adv s1 1
      match buf[s2.pos]? with
      | some 'i' => .ok (.sRegex (mkRegExp p ['g', 'm', 'i'])) (adv s2 1)
      | _ => .ok (.sRegex (mkRegExp p ['g', 'm'])) s2
    | some 'i' =>
      let s2 := adv s1 1
      match buf[s2.pos]? with
      | some 'm' => .ok (.sRegex (mkRegExp p ['g', 'i', 'm'])) (adv s2 1)
      | _ => .ok (.sRegex (mkRegExp p ['g', 'i'])) s2
    | _ => .ok (.sRegex (mkRegExp p ['g'])) s1
  | _ => .ok (.sRegex (mkRegExp p [])) s

/-- The `while (1)` body of `parseRegExp`: copy characters (escape pairs
verbatim) until an unescaped `/`, then hand over to the flag switch.  Past the
end of the buffer `result += buf[pos++]` appends `"undefined"` forever,
modelled verbatim. -/
def parseRegExpLoop (buf : List Char) : Nat → St → List Char → PR SVal
  | 0, _, _ => .og
  | Nat.succ f, s, acc =>
    if buf[s.pos]? = some '/' then flagSwitch buf (adv s 1) acc
    else if buf[s.pos]? = some '\\' then
      let p1 := appendCur buf s acc
      let p2 := appendCur buf p1.2 p1.1
      parseRegExpLoop buf f p2.2 p2.1
    else
      let p1 := appendCur buf s acc
      parseRegExpLoop buf f p1.2 p1.1

/-- `parseRegExp()` of the source: skip the opening `/`, reject an empty
pattern, and scan. -/
def parseRegExp (buf : List Char) (fuel : Nat) (s : St) : PR SVal :=
  let s1 := adv s 1
  if buf[s1.pos]? = some '/' then .err (mkErr buf s1)
  else parseRegExpLoop buf fuel s1 []

/-- Allocate a fresh heap cell, returning its address. -/
def allocCell (s : St) (c : Cell) : Nat × St :=
  (s.heap.length, { s with heap := s.heap ++ [c] })

/-- `result[key] = v`: overwrite an existing key in place or append a new one
(JS property assignment preserves insertion order on overwrite). -/
def setField (fields : List (List Char × SVal)) (k : List Char) (v : SVal) :
    List (List Char × SVal) :=
  match fields with
  | [] => [(k, v)]
  | (k0, v0) :: t => if k0 = k then (k0, v) :: t else (k0, v0) :: setField t k v

mutual

/-- `parseJson()` of the source: whitespace, then dispatch on the next
character. -/
def parseJson (buf : List Char) (classes : List (List Char)) :
    Nat → St → PR SVal
  | 0, _ => .og
  | Nat.succ f, s0 =>
    let s := white buf s0
    if buf[s.pos]? = some '$' then parseRef buf s
    else if buf[s.pos]? = some '{' then
      (parseObject buf classes f s).andThen fun a s1 => .ok (.sPtr a) s1
    else if buf[s.pos]? = some '[' then
      (parseArray buf classes f s).andThen fun a s1 => .ok (.sPtr a) s1
    else if buf[s.pos]? = some '/' then parseRegExp buf f s
    else if buf[s.pos]? = some '"' then
      (parseString buf f s).andThen fun str s1 => .ok (.sStr str) s1
    else if buf[s.pos]? = some '-' ∨ isNumO buf[s.pos]? then parseNumber buf s
    else
      let np := parseName buf s
      let name := np.1
      let s1 := np.2
      if name = ['N', 'a', 'N'] then .ok .sNaN s1
      else if name = ['I', 'n', 'f', 'i', 'n', 'i', 't', 'y'] then .ok (.sInf false) s1
      else if name = ['u', 'n', 'd', 'e', 'f', 'i', 'n', 'e', 'd'] then .ok .sUndef s1
      else if name = ['n', 'u', 'l', 'l'] then .ok .sNull s1
      else if name = ['t', 'r', 'u', 'e'] then .ok (.sBool true) s1
      else if name = ['f', 'a', 'l', 's', 'e'] then .ok (.sBool false) s1
      else if buf[s1.pos]? = some '{' then
        (parseObject buf classes f s1).andThen fun a s2 =>
          -- baseClass = mapClasses[name] ?? null; if truthy, Object.setPrototypeOf
          if classes.contains name then
            match s2.heap[a]? with
            | some (Cell.cObj _ fields) =>
              .ok (.sPtr a)
                { s2 with heap := s2.heap.set a (Cell.cObj (some name) fields) }
            | _ => .ok (.sPtr a) s2
          else .ok (.sPtr a) s2
      else .err (mkErr buf s1)

/-- `parseArray()` of the source. -/
def parseArray (buf : List Char) (classes : List (List Char)) :
    Nat → St → PR Nat
  | 0, _ => .og
  | Nat.succ f, s0 =>
    let s := white buf (adv s0 1)
    if buf[s.pos]? = some ']' then
      let p := allocCell (adv s 1) (.cArr [])
      .ok p.1 p.2
    else
      (parseJson buf classes f s).andThen fun v s1 =>
        arrayLoop buf classes f s1 [v]

/-- The element loop of `parseArray` (entered after each parsed element). -/
def arrayLoop (buf : List Char) (classes : List (List Char)) :
    Nat → St → List SVal → PR Nat
  | 0, _, _ => .og
  | Nat.succ f, s0, acc =>
    let s := white buf s0
    if buf[s.pos]? = some ',' then
      (parseJson buf classes f (adv s 1)).andThen fun v s1 =>
        arrayLoop buf classes f s1 (acc ++ [v])
    else if buf[s.pos]? = some ']' then
      let p := allocCell (adv s 1) (.cArr acc)
      .ok p.1 p.2
    else .err (mkErr buf s)

/-- `parseObject()` of the source. -/
def parseObject (buf : List Char) (classes : List (List Char)) :
    Nat → St → PR Nat
  | 0, _ => .og
  | Nat.succ f, s0 =>
    let s := white buf (adv s0 1)
    if buf[s.pos]? = some '}' then
      let p := allocCell (adv s 1) (.cObj none [])
      .ok p.1 p.2
    else objLoop buf classes f s []

/-- The `while (1)` member loop of `parseObject`. -/
def objLoop (buf : List Char) (classes : List (List Char)) :
    Nat → St → List (List Char × SVal) → PR Nat
  | 0, _, _ => .og
  | Nat.succ f, s0, fields =>
    (parseString buf f s0).andThen fun key s1 =>
      let s2 := white buf s1
      if buf[s2.pos]? = some ':' then
        (parseJson buf classes f (adv s2 1)).andThen fun v s3 =>
          let fields1 := setField fields key v
          let s4 := white buf s3
          if buf[s4.pos]? = some ',' then
            objLoop buf classes f (white buf (adv s4 1)) fields1
          else if buf[s4.pos]? = some '}' then
            let p := allocCell (adv s4 1) (.cObj none fields1)
            .ok p.1 p.2
          else .err (mkErr buf s4)
      else .err (mkErr buf s2)

end

/-- The statement loop of the driver: after each parsed statement, skip
whitespace and, while the next character is `;`, consume it and parse another
statement into the reference table. -/
def stmtLoop (buf : List Char) (classes : List (List Char)) :
    Nat → St → List SVal → PR (List SVal)
  | 0, _, _ => .og
  | Nat.succ f, s0, acc =>
    let s := white buf s0
    if buf[s.pos]? = some ';' then
      (consumeLit buf s [';']).andThen fun _ s1 =>
        (parseJson buf classes f s1).andThen fun v s2 =>
          stmtLoop buf classes f s2 (acc ++ [v])
    else .ok acc s

/-- `refs.push(parseJson()); white(); while (buf[pos] === ";") ...` of the
driver: parse the `;`-separated statements into the reference table. -/
def parseStatements (buf : List Char) (classes : List (List Char))
    (fuel : Nat) (s : St) : PR (List SVal) :=
  (parseJson buf classes fuel s).andThen fun v s1 =>
    stmtLoop buf classes fuel s1 [v]

/-- `value[key]` for an object cell (fields have unique keys by construction). -/
def getField (fields : List (List Char × SVal)) (k : List Char) : SVal :=
  match fields with
  | [] => .sUndef
  | (k0, v0) :: t => if k0 = k then v0 else getField t k

mutual

/-- `resolveRef(value)` of the source.  A tagged reference closure is replaced
by `refs[index]` (read at call time, `undefined` out of range) without
descending into it.  An array gets its elements resolved in place by the
indexed `for` loop and then — because `typeof [] === "object"` — a second time
by the `for...in` loop.  An object gets each field resolved in place by the
`for...in` loop.  All other values are returned unchanged (`for...in` over
`null`, a string, a regexp, a number… iterates over nothing).  Fuel models the
call stack: `none` means the JavaScript recursion does not terminate. -/
def resolve (refs : List SVal) : Nat → Heap → SVal → Option (Heap × SVal)
  | 0, _, _ => none
  | Nat.succ f, h, v =>
    match v with
    | .sRef i => some (h, refs.getD i .sUndef)
    | .sPtr a =>
      match h[a]? with
      | some (Cell.cArr _) =>
        match resolveArr refs f h a 0 with
        | some h1 =>
          match resolveArr refs f h1 a 0 with
          | some h2 => some (h2, .sPtr a)
          | none => none
        | none => none
      | some (Cell.cObj _ fields) =>
        match resolveFields refs f h a (fields.map Prod.fst) with
        | some h1 => some (h1, .sPtr a)
        | none => none
      | none => some (h, .sPtr a)
    | _ => some (h, v)

/-- `for (let i = 0; i < value.length; i++) value[i] = resolveRef(value[i])`:
the element is read from the current heap, resolved, and written back into the
current cell. -/
def resolveArr (refs : List SVal) : Nat → Heap → Nat → Nat → Option Heap
  | 0, _, _, _ => none
  | Nat.succ f, h, a, i =>
    match h[a]? with
    | some (Cell.cArr es) =>
      if i < es.length then
        match resolve refs f h (es.getD i .sUndef) with
        | some (h1, r) =>
          match h1[a]? with
          | some (Cell.cArr es1) =>
            resolveArr refs f (h1.set a (Cell.cArr (es1.set i r))) a (i + 1)
          | _ => none
        | none => none
      else some h
    | _ => none

/-- `for (const key in value) value[key] = resolveRef(value[key])` over the
snapshot of the keys of the object (the loop only overwrites existing keys, so the
key set never changes). -/
def resolveFields (refs : List SVal) : Nat → Heap → Nat → List (List Char) → Option Heap
  | 0, _, _, _ => none
  | Nat.succ _, h, _, [] => some h
  | Nat.succ f, h, a, k :: ks =>
    match h[a]? with
    | some (Cell.cObj _ fields) =>
      match resolve refs f h (getField fields k) with
      | some (h1, r) =>
        match h1[a]? with
        | some (Cell.cObj tag1 fields1) =>
          resolveFields refs f (h1.set a (Cell.cObj tag1 (setField fields1 k r))) a ks
        | _ => none
      | none => none
    | _ => none

end

/-- The overall result of `deserialize`: the returned value together with the
final heap, a thrown `SyntaxError`, or divergence. -/
inductive DR where
  | ok (v : SVal) (h : Heap)
  | err (e : SynErr)
  | og
deriving DecidableEq, Repr

/-- `deserialize(code, options)` of the source: parse the `;`-separated
statements, require the whole input to be consumed, resolve references
starting from the first statement, and return its resolved value. -/
def deserialize (code : List Char) (classes : List (List Char)) (fuel : Nat) : DR :=
  match parseStatements code classes fuel ⟨0, []⟩ with
  | .og => .og
  | .err e => .err e
  | .ok refs s =>
    if code.length = s.pos then
      match resolve refs fuel s.heap (refs.getD 0 .sUndef) with
      | some (h, v) => .ok v h
      | none => .og
    else .err (mkErr code s)

/-- Whether a value is a deferred-reference placeholder node (the tagged
closure built by `parseRef`). -/
def SVal.isRef : SVal → Bool
  | .sRef _ => true
  | _ => false

/-- The flag sequences accepted by the nested `switch` of `parseRegExp`: every
ordering of every subset of `{i, m, g}`. -/
def validFlagSeqs : List (List Char) :=
  [[], ['i'], ['i', 'm'], ['i', 'm', 'g'], ['i', 'g'], ['i', 'g', 'm'],
    ['m'], ['m', 'i'], ['m', 'i', 'g'], ['m', 'g'], ['m', 'g', 'i'],
    ['g'], ['g', 'm'], ['g', 'm', 'i'], ['g', 'i'], ['g', 'i', 'm']]

/-- The six reserved literal keywords of the bareword branch and their values. -/
def kwTable : List (List Char × SVal) :=
  [(['N', 'a', 'N'], .sNaN),
    (['I', 'n', 'f', 'i', 'n', 'i', 't', 'y'], .sInf false),
    (['u', 'n', 'd', 'e', 'f', 'i', 'n', 'e', 'd'], .sUndef),
    (['n', 'u', 'l', 'l'], .sNull),
    (['t', 'r', 'u', 'e'], .sBool true),
    (['f', 'a', 'l', 's', 'e'], .sBool false)]

/-! ### Suffix-walking lemmas

The parser reads the buffer only through `buf[pos]?` and `buf.drop pos`, so a
proof about an abstract buffer can march through it by tracking the suffix
`buf.drop pos`. -/

theorem getElem_of_drop {buf : List Char} {pos : Nat} {c : Char} {r : List Char}
    (h : buf.drop pos = c :: r) : buf[pos]? = some c := by
  have h0 := List.getElem?_drop buf pos 0
  rw [h] at h0
  simpa using h0.symm

theorem drop_succ_of_drop {buf : List Char} {pos : Nat} {c : Char} {r : List Char}
    (h : buf.drop pos = c :: r) : buf.drop (pos + 1) = r := by
  have h0 : buf.drop (pos + 1) = (buf.drop pos).drop 1 := by
    rw [List.drop_drop]
  rw [h0, h]
  rfl

theorem getElem_none_of_drop {buf : List Char} {pos : Nat}
    (h : buf.drop pos = []) : buf[pos]? = none := by
  have h0 := List.getElem?_drop buf pos 0
  rw [h] at h0
  simpa using h0.symm

theorem drop_add_of_drop {buf : List Char} {pos : Nat} {w r : List Char}
    (h : buf.drop pos = w ++ r) : buf.drop (pos + w.length) = r := by
  have h0 : buf.drop (pos + w.length) = (buf.drop pos).drop w.length := by
    rw [List.drop_drop]
  rw [h0, h]
  simp

/-- A whitespace run followed by a stopped suffix: the distance moved by
`white()`. -/
theorem wsRun_append {w r : List Char} (hw : ∀ c ∈ w, isWS c = true)
    (hr : wsRun r = 0) : wsRun (w ++ r) = w.length := by
  induction w with
  | nil => simpa using hr
  | cons c t ih =>
    have hc : isWS c = true := hw c (by simp)
    have ht : ∀ c ∈ t, isWS c = true := fun x hx => hw x (by simp [hx])
    simp [wsRun, hc, ih ht]

/-- `white()` on a suffix decomposed as a whitespace run and a stopped rest. -/
theorem white_eq {buf : List Char} {pos : Nat} {heap : Heap} {w r : List Char}
    (h : buf.drop pos = w ++ r) (hw : ∀ c ∈ w, isWS c = true)
    (hr : wsRun r = 0) :
    white buf ⟨pos, heap⟩ = ⟨pos + w.length, heap⟩ := by
  simp [white, h, wsRun_append hw hr]

theorem wsRun_cons_not {c : Char} {t : List Char} (h : isWS c = false) :
    wsRun (c :: t) = 0 := by
  simp [wsRun, h]

/-- A digit run followed by a stopped suffix is what the digit loops collect. -/
theorem digitsPrefix_append {d r : List Char} (hd : ∀ c ∈ d, isNum c = true)
    (hr : digitsPrefix r = []) : digitsPrefix (d ++ r) = d := by
  induction d with
  | nil => simpa using hr
  | cons c t ih =>
    have hc : isNum c = true := hd c (by simp)
    have ht : ∀ c ∈ t, isNum c = true := fun x hx => hd x (by simp [hx])
    simp [digitsPrefix, hc, ih ht]

theorem digitsPrefix_cons_not {c : Char} {t : List Char} (h : isNum c = false) :
    digitsPrefix (c :: t) = [] := by
  simp [digitsPrefix, h]

/-- An identifier run followed by a stopped suffix is what `parseName` collects. -/
theorem namePrefix_append {d r : List Char} (hd : ∀ c ∈ d, isNameCont c = true)
    (hr : namePrefix r = []) : namePrefix (d ++ r) = d := by
  induction d with
  | nil => simpa using hr
  | cons c t ih =>
    have hc : isNameCont c = true := hd c (by simp)
    have ht : ∀ c ∈ t, isNameCont c = true := fun x hx => hd x (by simp [hx])
    simp [namePrefix, hc, ih ht]

/-! ### Divergence of the string scan loop

`parseString` has no end-of-input check: when the rest of the input contains
neither a closing `"` nor a `\`, every iteration appends to `result` and
advances the cursor (appending the text `"undefined"` once past the end), so
the loop never exits, whatever the fuel. -/

theorem parseStringLoop_og {buf : List Char} (f : Nat) :
    ∀ (s : St) (acc : List Char),
      (∀ c ∈ buf.drop s.pos, c ≠ '"' ∧ c ≠ '\\') →
      parseStringLoop buf f s acc = .og := by
  induction f with
  | zero => intro s acc _; rfl
  | succ f ih =>
    intro s acc h
    cases hc : buf[s.pos]? with
    | none =>
      have hnil : buf.drop (s.pos + 1) = [] := by
        have hlen : buf.length ≤ s.pos := List.getElem?_eq_none_iff.mp hc
        exact List.drop_eq_nil_of_le (by omega)
      simp only [parseStringLoop, hc, appendCur]
      simp only [Option.some.injEq, reduceCtorEq, if_false]
      refine ih _ _ ?_
      intro c hcm
      rw [show (adv s 1).pos = s.pos + 1 from rfl, hnil] at hcm
      cases hcm
    | some c =>
      have hlt : s.pos < buf.length := by
        by_contra hge
        rw [List.getElem?_eq_none_iff.mpr (by omega)] at hc
        cases hc
      have hdr : buf.drop s.pos = c :: buf.drop (s.pos + 1) := by
        rw [List.drop_eq_getElem_cons hlt]
        congr 1
        have := List.getElem?_eq_getElem hlt
        rw [this] at hc
        exact Option.some.inj hc
      have hm : c ∈ buf.drop s.pos := by rw [hdr]; exact List.mem_cons_self _ _
      have hq := (h c hm).1
      have hb := (h c hm).2
      have ht : ∀ x ∈ buf.drop (s.pos + 1), x ≠ '"' ∧ x ≠ '\\' := by
        intro x hx
        exact h x (by rw [hdr]; exact List.mem_cons_of_mem _ hx)
      simp only [parseStringLoop, hc, appendCur]
      rw [if_neg (by simpa using hq), if_neg (by simpa using hb)]
      exact ih _ _ ht

/-! ### C1: unterminated string literal -/

/-- C1 (code bug witness): on the input `"ab` — end of input reached inside a
string literal — `deserialize` does not throw: for every fuel the run is out
of gas, i.e. the JavaScript loop in `parseString` runs forever (the claimed
`SyntaxError` is never produced). -/
theorem c1_unterminated_string_diverges (fuel : Nat) :
    deserialize ['"', 'a', 'b'] [] fuel = .og := by
  cases fuel with
  | zero => rfl
  | succ f =>
    have hog : parseStringLoop ['"', 'a', 'b'] f ⟨1, []⟩ [] = .og :=
      parseStringLoop_og f ⟨1, []⟩ [] (by decide)
    simp [deserialize, parseStatements, parseJson, white, wsRun, isWS,
      parseString, adv, hog, PR.andThen]

/-! ### C3: bareword object key -/

/-- C3 (code bug witness): on the input `{a:1}` — an object member whose key
is a bareword rather than a double-quoted string — `deserialize` does not
throw at the offending character: `parseString` consumes `a` as if it were the
opening quote, scans `:1}` as string content, reaches end of input and loops
forever (out of gas for every fuel). -/
theorem c3_bareword_key_diverges (fuel : Nat) :
    deserialize ['{', 'a', ':', '1', '}'] [] fuel = .og := by
  cases fuel with
  | zero => rfl
  | succ f =>
    cases f with
    | zero => rfl
    | succ g =>
      cases g with
      | zero => rfl
      | succ k =>
        have hog : parseStringLoop ['{', 'a', ':', '1', '}'] k ⟨2, []⟩ [] = .og :=
          parseStringLoop_og k ⟨2, []⟩ [] (by decide)
        simp [deserialize, parseStatements, parseJson, parseObject, objLoop,
          white, wsRun, isWS, parseString, adv, hog, PR.andThen]

/-! ### C9: empty or whitespace-only input -/

/-- C9: on the empty input and on every input consisting only of whitespace
characters, `deserialize` terminates by throwing a `SyntaxError` that reports
unexpected end of input at the end-of-input position; it never returns a
value. -/
theorem c9_whitespace_only_input_errors (s : List Char) (f : Nat)
    (h : ∀ c ∈ s, isWS c = true) :
    deserialize s [] (f + 1) = .err ⟨none, s.length⟩ := by
  have hdrop : s.drop 0 = s ++ [] := by simp
  have hwh : white s ⟨0, []⟩ = ⟨s.length, []⟩ := by
    simpa using white_eq hdrop h rfl
  have hnone : s[s.length]? = none :=
    getElem_none_of_drop (by simp)
  have hpj : parseJson s [] (f + 1) ⟨0, []⟩ = .err ⟨none, s.length⟩ := by
    simp [parseJson, hwh, hnone, isNumO, parseName, mkErr]
  simp [deserialize, parseStatements, hpj, PR.andThen]

/-- Witness for C9 at the concrete input `" \t"`. -/
theorem c9_whitespace_only_input_errors_witness :
    deserialize [' ', '\t'] [] 3 = .err ⟨none, 2⟩ :=
  c9_whitespace_only_input_errors [' ', '\t'] 2 (by decide)

/-! ### C10: the six literal keywords are reserved -/

/-- C10: whenever one of the six literal keywords (`NaN`, `Infinity`,
`undefined`, `null`, `true`, `false`) is scanned as a bareword — i.e. the
input continues with anything that does not extend the identifier — the value
parser returns the literal value of the keyword, whatever follows (in particular a
`{` immediately after), so the class-tag branch is never taken for a keyword;
consequently `true{"x":1}` is rejected as trailing input at the `{` rather
than parsed as a tagged object. -/
theorem c10_keywords_reserved :
    (∀ p ∈ kwTable, ∀ (rest : List Char) (f : Nat) (heap : Heap),
        namePrefix rest = [] →
        parseJson (p.1 ++ rest) [] (f + 1) ⟨0, heap⟩ = .ok p.2 ⟨p.1.length, heap⟩) ∧
      deserialize
        ['t', 'r', 'u', 'e', '{', '"', 'x', '"', ':', '1', '}'] [] 20 =
        .err ⟨some '{', 4⟩ := by
  constructor
  · intro p hp
    fin_cases hp
    · intro rest f heap hrest
      have hnp : namePrefix ('a' :: 'N' :: rest) = ['a', 'N'] :=
        @namePrefix_append ['a', 'N'] rest (by decide) hrest
      simp [parseJson, white, wsRun, isWS, isNumO, isNum, parseName,
        isNameStart, adv, hnp]
    · intro rest f heap hrest
      have hnp : namePrefix ('n' :: 'f' :: 'i' :: 'n' :: 'i' :: 't' :: 'y' :: rest) =
          ['n', 'f', 'i', 'n', 'i', 't', 'y'] :=
        @namePrefix_append ['n', 'f', 'i', 'n', 'i', 't', 'y'] rest (by decide) hrest
      simp [parseJson, white, wsRun, isWS, isNumO, isNum, parseName,
        isNameStart, adv, hnp]
    · intro rest f heap hrest
      have hnp : namePrefix ('n' :: 'd' :: 'e' :: 'f' :: 'i' :: 'n' :: 'e' :: 'd' :: rest) =
          ['n', 'd', 'e', 'f', 'i', 'n', 'e', 'd'] :=
        @namePrefix_append ['n', 'd', 'e', 'f', 'i', 'n', 'e', 'd'] rest (by decide) hrest
      simp [parseJson, white, wsRun, isWS, isNumO, isNum, parseName,
        isNameStart, adv, hnp]
    · intro rest f heap hrest
      have hnp : namePrefix ('u' :: 'l' :: 'l' :: rest) = ['u', 'l', 'l'] :=
        @namePrefix_append ['u', 'l', 'l'] rest (by decide) hrest
      simp [parseJson, white, wsRun, isWS, isNumO, isNum, parseName,
        isNameStart, adv, hnp]
    · intro rest f heap hrest
      have hnp : namePrefix ('r' :: 'u' :: 'e' :: rest) = ['r', 'u', 'e'] :=
        @namePrefix_append ['r', 'u', 'e'] rest (by decide) hrest
      simp [parseJson, white, wsRun, isWS, isNumO, isNum, parseName,
        isNameStart, adv, hnp]
    · intro rest f heap hrest
      have hnp : namePrefix ('a' :: 'l' :: 's' :: 'e' :: rest) = ['a', 'l', 's', 'e'] :=
        @namePrefix_append ['a', 'l', 's', 'e'] rest (by decide) hrest
      simp [parseJson, white, wsRun, isWS, isNumO, isNum, parseName,
        isNameStart, adv, hnp]
  · decide

/-- Witness for C10: `true` followed immediately by `{` still parses as the
boolean literal. -/
theorem c10_keywords_reserved_witness :
    parseJson ['t', 'r', 'u', 'e', '{'] [] 5 ⟨0, []⟩ = .ok (.sBool true) ⟨4, []⟩ :=
  c10_keywords_reserved.1 (['t', 'r', 'u', 'e'], .sBool true) (by decide)
    ['{'] 4 [] (by decide)

/-! ### C8: negative zero and arbitrary-precision integers -/

/-- C8: the number lexer parses `-0` to negative zero (negative sign with zero
magnitude), and parses every digit string immediately followed by `n` (with
optional leading `-`) to the exact arbitrary-precision integer with the sign
applied, consuming nothing after the `n` whatever follows it; in particular
`123n` deserializes to the exact big integer 123. -/
theorem c8_number_lexer :
    (∀ (neg : Bool) (d : Char) (ds rest : List Char) (heap : Heap),
        isNum d = true → (∀ c ∈ ds, isNum c = true) →
        parseNumber ((if neg then ['-'] else []) ++ d :: ds ++ 'n' :: rest)
            ⟨0, heap⟩ =
          .ok
            (.sBigInt
              (if neg then -(digitsVal (d :: ds) : ℤ) else (digitsVal (d :: ds) : ℤ)))
            ⟨(if neg then 1 else 0) + (ds.length + 1) + 1, heap⟩) ∧
      deserialize ['-', '0'] [] 10 = .ok (.sNum true ⟨0, 0⟩) [] ∧
      deserialize ['1', '2', '3', 'n'] [] 10 = .ok (.sBigInt 123) [] := by
  refine ⟨?_, by decide, by decide⟩
  intro neg d ds rest heap hdd hd
  have hall : ∀ c ∈ d :: ds, isNum c = true := by
    intro c hc
    rcases List.mem_cons.mp hc with h | h
    · rw [h]; exact hdd
    · exact hd c h
  have hstop : digitsPrefix ('n' :: rest) = [] := digitsPrefix_cons_not (by decide)
  have hds : digitsPrefix (d :: (ds ++ 'n' :: rest)) = d :: ds := by
    exact @digitsPrefix_append (d :: ds) ('n' :: rest) hall hstop
  have hdm : d ≠ '-' := by intro h; rw [h] at hdd; exact absurd hdd (by decide)
  have hdI : d ≠ 'I' := by intro h; rw [h] at hdd; exact absurd hdd (by decide)
  have hdropn : (d :: (ds ++ 'n' :: rest)).drop (ds.length + 1) = 'n' :: rest := by
    rw [List.drop_succ_cons]
    have h := @List.drop_append _ ds ('n' :: rest) 0
    rw [Nat.add_zero] at h
    rw [h]
    rfl
  cases neg with
  | false =>
    have h0 : (d :: (ds ++ 'n' :: rest))[(0 : Nat)]? = some d := by simp
    have hn : (d :: (ds ++ 'n' :: rest))[ds.length + 1]? = some 'n' :=
      getElem_of_drop hdropn
    simp [parseNumber, h0, hdm, hdI, isNumO, hdd, hds, hn, adv]
  | true =>
    have h0 : ('-' :: d :: (ds ++ 'n' :: rest))[(0 : Nat)]? = some '-' := by simp
    have h1 : ('-' :: d :: (ds ++ 'n' :: rest))[(1 : Nat)]? = some d := by simp
    have hdropd : ('-' :: d :: (ds ++ 'n' :: rest)).drop 1 = d :: (ds ++ 'n' :: rest) := rfl
    have hn : ('-' :: d :: (ds ++ 'n' :: rest))[1 + (ds.length + 1)]? = some 'n' := by
      apply getElem_of_drop
      rw [Nat.add_comm 1 (ds.length + 1), List.drop_succ_cons]
      exact hdropn
    simp [parseNumber, h0, h1, hdm, hdI, isNumO, hdd, hdropd, hds, hn, adv]

/-- Witness for C8: `-45n` lexes to the big integer `-45`. -/
theorem c8_number_lexer_witness :
    parseNumber ['-', '4', '5', 'n', '.', '2'] ⟨0, []⟩ =
      .ok (.sBigInt (-45)) ⟨4, []⟩ := by
  have h := c8_number_lexer.1 true '4' ['5'] ['.', '2'] [] (by decide) (by decide)
  simpa using h

/-! ### C5: cyclic self-reference -/

/-- C5: deserializing `{"self":$0}` terminates (with fuel 30; no infinite loop
during resolution) and produces an object — the heap cell at address 0 — whose
`self` field holds a pointer to that same cell: the `self` field of the object is
the object itself by identity, not a copy. -/
theorem c5_cyclic_self_reference :
    deserialize ['{', '"', 's', 'e', 'l', 'f', '"', ':', '$', '0', '}'] [] 30 =
      .ok (.sPtr 0) [Cell.cObj none [(['s', 'e', 'l', 'f'], .sPtr 0)]] := by
  decide

/-! ### C6: the top-level driver -/

/-- C6: the driver collects `;`-separated statements into the reference table
and returns the resolved value of the first statement — `[$1]; 5` deserializes to
the one-element array holding 5, with the forward reference resolved — and
whenever the statement loop stops short of the end of the input, `deserialize`
throws a `SyntaxError` reporting the character (or end) at the stop position. -/
theorem c6_driver_and_trailing_input :
    deserialize ['[', '$', '1', ']', ';', ' ', '5'] [] 30 =
        .ok (.sPtr 0) [Cell.cArr [.sNum false ⟨5, 0⟩]] ∧
      ∀ (code : List Char) (classes : List (List Char)) (fuel : Nat)
        (refs : List SVal) (s : St),
        parseStatements code classes fuel ⟨0, []⟩ = .ok refs s →
        s.pos ≠ code.length →
        deserialize code classes fuel = .err ⟨code[s.pos]?, s.pos⟩ := by
  refine ⟨by decide, ?_⟩
  intro code classes fuel refs s hps hne
  have hne2 : ¬(code.length = s.pos) := fun h => hne h.symm
  simp [deserialize, hps, hne2, mkErr]

/-- Witness for C6 at `1 2`: the statement loop stops before the `2`, which is
reported as the unexpected token. -/
theorem c6_driver_and_trailing_input_witness :
    deserialize ['1', ' ', '2'] [] 10 = .err ⟨some '2', 2⟩ :=
  c6_driver_and_trailing_input.2 ['1', ' ', '2'] [] 10
    [.sNum false ⟨1, 0⟩] ⟨2, []⟩ (by decide) (by decide)

/-! ### C2: placeholders and the resolver -/

/-- The resolver never returns a placeholder when no reference-table entry is
itself a placeholder: a `sRef` node is replaced by the table entry, a pointer
stays a pointer, and every other value is returned unchanged. -/
theorem resolve_not_ref {refs : List SVal}
    (hrefs : ∀ x ∈ refs, x.isRef = false) :
    ∀ (f : Nat) (h : Heap) (v : SVal) (h1 : Heap) (r : SVal),
      resolve refs f h v = some (h1, r) → r.isRef = false := by
  intro f h v h1 r hres
  cases f with
  | zero => cases hres
  | succ f =>
    cases v with
    | sRef i =>
      simp only [resolve] at hres
      cases hres
      rw [List.getD_eq_getElem?_getD]
      cases hi : refs[i]? with
      | none => rfl
      | some x =>
        have hmem : x ∈ refs := by
          obtain ⟨hlt, heq⟩ := List.getElem?_eq_some.mp hi
          rw [← heq]
          exact List.getElem_mem hlt
        simpa using hrefs x hmem
    | sPtr a =>
      simp only [resolve] at hres
      split at hres
      · split at hres
        · split at hres
          · cases hres; rfl
          · cases hres
        · cases hres
      · split at hres
        · cases hres; rfl
        · cases hres
      · cases hres; rfl
    | sNull => simp only [resolve] at hres; cases hres; rfl
    | sUndef => simp only [resolve] at hres; cases hres; rfl
    | sBool b => simp only [resolve] at hres; cases hres; rfl
    | sNaN => simp only [resolve] at hres; cases hres; rfl
    | sInf n => simp only [resolve] at hres; cases hres; rfl
    | sNum n m => simp only [resolve] at hres; cases hres; rfl
    | sBigInt i => simp only [resolve] at hres; cases hres; rfl
    | sStr t => simp only [resolve] at hres; cases hres; rfl
    | sRegex r0 => simp only [resolve] at hres; cases hres; rfl

/-- C2 (amended): whenever `deserialize` returns a value and no parsed
top-level statement is itself a bare-reference placeholder, the returned value
is not a placeholder node.  (The original claim — that no placeholder is even
transitively reachable, including for the document `$0` — is refuted by the
counterexample below: the resolver substitutes a table entry without
descending into it, and a bare-reference document returns the placeholder
itself.) -/
theorem c2_resolver_output_not_placeholder :
    ∀ (code : List Char) (classes : List (List Char)) (fuel : Nat)
      (refs : List SVal) (s : St) (v : SVal) (hp : Heap),
      parseStatements code classes fuel ⟨0, []⟩ = .ok refs s →
      (∀ x ∈ refs, x.isRef = false) →
      deserialize code classes fuel = .ok v hp →
      v.isRef = false := by
  intro code classes fuel refs s v hp hps hrefs hdes
  unfold deserialize at hdes
  rw [hps] at hdes
  simp only at hdes
  by_cases hlen : code.length = s.pos
  · rw [if_pos hlen] at hdes
    cases hres : resolve refs fuel s.heap (refs.getD 0 .sUndef) with
    | none => rw [hres] at hdes; cases hdes
    | some p =>
      obtain ⟨h2, r⟩ := p
      rw [hres] at hdes
      cases hdes
      exact resolve_not_ref hrefs fuel s.heap (refs.getD 0 .sUndef) _ _ hres
  · rw [if_neg hlen] at hdes
    cases hdes

/-- Witness for C2 (amended) at `{"self":$0}`: the single statement of the
cyclic document is an object pointer, not a placeholder, and the returned
value is not a placeholder. -/
theorem c2_resolver_output_not_placeholder_witness :
    SVal.isRef (.sPtr 0) = false :=
  c2_resolver_output_not_placeholder
    ['{', '"', 's', 'e', 'l', 'f', '"', ':', '$', '0', '}'] [] 30
    [.sPtr 0] ⟨11, [Cell.cObj none [(['s', 'e', 'l', 'f'], .sRef 0)]]⟩
    (.sPtr 0) [Cell.cObj none [(['s', 'e', 'l', 'f'], .sPtr 0)]]
    (by decide) (by decide) (by decide)

/-- C2 counterexample: the whole document being the single bare reference `$0`,
`deserialize` terminates and returns the deferred-reference placeholder node
itself — a `Reference` placeholder escapes the resolver pass, contradicting
the claim. -/
theorem c2_counterexample_bare_ref_escapes :
    deserialize ['$', '0'] [] 5 = .ok (.sRef 0) [] ∧
      SVal.isRef (.sRef 0) = true := by
  decide

/-! ### C7: regex flag orderings -/

/-- The flag `switch` of `parseRegExp`, run on a buffer that ends right after
one of the accepted flag sequences, consumes the whole sequence and builds
`new RegExp` with exactly those flags. -/
theorem flagSwitch_at_end (σ : List Char) (hσ : σ ∈ validFlagSeqs) :
    ∀ (buf : List Char) (pos : Nat) (heap : Heap) (p : List Char),
      buf.drop pos = σ →
      flagSwitch buf ⟨pos, heap⟩ p =
        .ok (.sRegex (mkRegExp p σ)) ⟨pos + σ.length, heap⟩ := by
  fin_cases hσ <;> intro buf pos heap p hdrop
  · have e1 := getElem_none_of_drop hdrop
    simp [flagSwitch, e1, adv, mkRegExp]
  · have e1 := getElem_of_drop hdrop
    have d1 := drop_succ_of_drop hdrop
    have e2 := getElem_none_of_drop d1
    simp [flagSwitch, e1, e2, adv, mkRegExp]
  · have e1 := getElem_of_drop hdrop
    have d1 := drop_succ_of_drop hdrop
    have e2 := getElem_of_drop d1
    have d2 := drop_succ_of_drop d1
    have e3 := getElem_none_of_drop d2
    simp [flagSwitch, e1, e2, e3, adv, mkRegExp]
  · have e1 := getElem_of_drop hdrop
    have d1 := drop_succ_of_drop hdrop
    have e2 := getElem_of_drop d1
    have d2 := drop_succ_of_drop d1
    have e3 := getElem_of_drop d2
    have d3 := drop_succ_of_drop d2
    have e4 := getElem_none_of_drop d3
    simp [flagSwitch, e1, e2, e3, e4, adv, mkRegExp]
  · have e1 := getElem_of_drop hdrop
    have d1 := drop_succ_of_drop hdrop
    have e2 := getElem_of_drop d1
    have d2 := drop_succ_of_drop d1
    have e3 := getElem_none_of_drop d2
    simp [flagSwitch, e1, e2, e3, adv, mkRegExp]
  · have e1 := getElem_of_drop hdrop
    have d1 := drop_succ_of_drop hdrop
    have e2 := getElem_of_drop d1
    have d2 := drop_succ_of_drop d1
    have e3 := getElem_of_drop d2
    have d3 := drop_succ_of_drop d2
    have e4 := getElem_none_of_drop d3
    simp [flagSwitch, e1, e2, e3, e4, adv, mkRegExp]
  · have e1 := getElem_of_drop hdrop
    have d1 := drop_succ_of_drop hdrop
    have e2 := getElem_none_of_drop d1
    simp [flagSwitch, e1, e2, adv, mkRegExp]
  · have e1 := getElem_of_drop hdrop
    have d1 := drop_succ_of_drop hdrop
    have e2 := getElem_of_drop d1
    have d2 := drop_succ_of_drop d1
    have e3 := getElem_none_of_drop d2
    simp [flagSwitch, e1, e2, e3, adv, mkRegExp]
  · have e1 := getElem_of_drop hdrop
    have d1 := drop_succ_of_drop hdrop
    have e2 := getElem_of_drop d1
    have d2 := drop_succ_of_drop d1
    have e3 := getElem_of_drop d2
    have d3 := drop_succ_of_drop d2
    have e4 := getElem_none_of_drop d3
    simp [flagSwitch, e1, e2, e3, e4, adv, mkRegExp]
  · have e1 := getElem_of_drop hdrop
    have d1 := drop_succ_of_drop hdrop
    have e2 := getElem_of_drop d1
    have d2 := drop_succ_of_drop d1
    have e3 := getElem_none_of_drop d2
    simp [flagSwitch, e1, e2, e3, adv, mkRegExp]
  · have e1 := getElem_of_drop hdrop
    have d1 := drop_succ_of_drop hdrop
    have e2 := getElem_of_drop d1
    have d2 := drop_succ_of_drop d1
    have e3 := getElem_of_drop d2
    have d3 := drop_succ_of_drop d2
    have e4 := getElem_none_of_drop d3
    simp [flagSwitch, e1, e2, e3, e4, adv, mkRegExp]
  · have e1 := getElem_of_drop hdrop
    have d1 := drop_succ_of_drop hdrop
    have e2 := getElem_none_of_drop d1
    simp [flagSwitch, e1, e2, adv, mkRegExp]
  · have e1 := getElem_of_drop hdrop
    have d1 := drop_succ_of_drop hdrop
    have e2 := getElem_of_drop d1
    have d2 := drop_succ_of_drop d1
    have e3 := getElem_none_of_drop d2
    simp [flagSwitch, e1, e2, e3, adv, mkRegExp]
  · have e1 := getElem_of_drop hdrop
    have d1 := drop_succ_of_drop hdrop
    have e2 := getElem_of_drop d1
    have d2 := drop_succ_of_drop d1
    have e3 := getElem_of_drop d2
    have d3 := drop_succ_of_drop d2
    have e4 := getElem_none_of_drop d3
    simp [flagSwitch, e1, e2, e3, e4, adv, mkRegExp]
  · have e1 := getElem_of_drop hdrop
    have d1 := drop_succ_of_drop hdrop
    have e2 := getElem_of_drop d1
    have d2 := drop_succ_of_drop d1
    have e3 := getElem_none_of_drop d2
    simp [flagSwitch, e1, e2, e3, adv, mkRegExp]
  · have e1 := getElem_of_drop hdrop
    have d1 := drop_succ_of_drop hdrop
    have e2 := getElem_of_drop d1
    have d2 := drop_succ_of_drop d1
    have e3 := getElem_of_drop d2
    have d3 := drop_succ_of_drop d2
    have e4 := getElem_none_of_drop d3
    simp [flagSwitch, e1, e2, e3, e4, adv, mkRegExp]

/-- The `parseRegExp` scan over a pattern containing no `/` and no `\`,
followed by the closing `/` and a flag sequence at the end of the buffer. -/
theorem parseRegExpLoop_run (σ : List Char) (hσ : σ ∈ validFlagSeqs) :
    ∀ (q : List Char) (f : Nat) (acc : List Char) (buf : List Char)
      (pos : Nat) (heap : Heap),
      (∀ c ∈ q, c ≠ '/' ∧ c ≠ '\\') →
      buf.drop pos = q ++ '/' :: σ →
      parseRegExpLoop buf (f + q.length + 1) ⟨pos, heap⟩ acc =
        .ok (.sRegex (mkRegExp (acc ++ q) σ))
          ⟨pos + q.length + 1 + σ.length, heap⟩ := by
  intro q
  induction q with
  | nil =>
    intro f acc buf pos heap _ hdrop
    have e1 : buf[pos]? = some '/' := getElem_of_drop hdrop
    have d1 : buf.drop (pos + 1) = σ := drop_succ_of_drop hdrop
    have hfs := flagSwitch_at_end σ hσ buf (pos + 1) heap acc d1
    simp [parseRegExpLoop, e1, adv, hfs]
  | cons c q' ih =>
    intro f acc buf pos heap hq hdrop
    have e1 : buf[pos]? = some c := getElem_of_drop hdrop
    have d1 : buf.drop (pos + 1) = q' ++ '/' :: σ := drop_succ_of_drop hdrop
    have hc := hq c (by simp)
    have hq' : ∀ x ∈ q', x ≠ '/' ∧ x ≠ '\\' := fun x hx => hq x (by simp [hx])
    have hrw : f + (c :: q').length + 1 = (f + q'.length + 1) + 1 := by
      simp [List.length_cons]
      omega
    rw [hrw]
    have hih := ih f (acc ++ [c]) buf (pos + 1) heap hq' d1
    have hpos : pos + 1 + q'.length + 1 + σ.length =
        pos + (c :: q').length + 1 + σ.length := by
      simp [List.length_cons]
      omega
    rw [hpos] at hih
    generalize hF : f + q'.length + 1 = F
    rw [hF] at hih
    simp only [parseRegExpLoop, appendCur, adv, e1, Option.some.injEq]
    rw [if_neg hc.1, if_neg hc.2]
    rw [hih]
    simp [List.append_assoc]

/-- A whole-document regex parse: `/` pattern `/` flags, with nothing after
the flags, deserializes to the compiled pattern with exactly those flags. -/
theorem deserialize_regex_doc (σ : List Char) (hσ : σ ∈ validFlagSeqs)
    (p : List Char) (hp : p ≠ []) (hpc : ∀ c ∈ p, c ≠ '/' ∧ c ≠ '\\')
    (f : Nat) :
    deserialize ('/' :: p ++ '/' :: σ) [] (f + p.length + 3) =
      .ok (.sRegex (mkRegExp p σ)) [] := by
  obtain ⟨c, p', rfl⟩ : ∃ c p', p = c :: p' := by
    cases p with
    | nil => exact absurd rfl hp
    | cons c t => exact ⟨c, t, rfl⟩
  have hbuf : ('/' :: (c :: p') ++ '/' :: σ).drop 1 = (c :: p') ++ '/' :: σ := rfl
  have hc := hpc c (by simp)
  have e1 : ('/' :: (c :: p') ++ '/' :: σ)[(1 : Nat)]? = some c := by simp
  have hloop := parseRegExpLoop_run σ hσ (c :: p') (f + 1) []
    ('/' :: (c :: p') ++ '/' :: σ) 1 [] hpc hbuf
  have hlen : ('/' :: (c :: p') ++ '/' :: σ).length =
      1 + (c :: p').length + 1 + σ.length := by
    simp [List.length_cons, List.length_append]
    omega
  have hend : ('/' :: (c :: p') ++ '/' :: σ).drop
      (1 + (c :: p').length + 1 + σ.length) = [] := by
    apply List.drop_eq_nil_of_le
    omega
  have hnone := getElem_none_of_drop hend
  simp only [List.cons_append, List.length_cons] at hloop e1 hnone hlen hend ⊢
  have hfuel : f + (p'.length + 1) + 3 = ((f + 1) + (p'.length + 1) + 1) + 1 := by
    omega
  rw [hfuel]
  simp [deserialize, parseStatements, parseJson, parseRegExp, stmtLoop, white,
    wsRun, isWS, isNumO, isNum, e1, hc.1, hloop, PR.andThen, adv, hnone, hend,
    hlen, mkErr, resolve, List.getD]
  omega

/-- C7: for every nonempty pattern (without `/` or `\`) and any two orderings
of the same subset of the flag characters `{i, m, g}` after the closing `/`,
both documents deserialize successfully to equal compiled patterns — the same
pattern string and the same order-insensitive flag set.  In particular
`/ab/gim`, `/ab/mig` and `/ab/img` all parse to the global, case-insensitive,
multiline pattern `ab`. -/
theorem c7_regex_flag_order_irrelevant (p σ τ : List Char) (f : Nat)
    (hp : p ≠ []) (hpc : ∀ c ∈ p, c ≠ '/' ∧ c ≠ '\\')
    (hσ : σ ∈ validFlagSeqs) (hτ : τ ∈ validFlagSeqs)
    (hi : σ.contains 'i' = τ.contains 'i')
    (hm : σ.contains 'm' = τ.contains 'm')
    (hg : σ.contains 'g' = τ.contains 'g') :
    deserialize ('/' :: p ++ '/' :: σ) [] (f + p.length + 3) =
        .ok (.sRegex (mkRegExp p σ)) [] ∧
      deserialize ('/' :: p ++ '/' :: τ) [] (f + p.length + 3) =
        .ok (.sRegex (mkRegExp p τ)) [] ∧
      mkRegExp p σ = mkRegExp p τ := by
  refine ⟨deserialize_regex_doc σ hσ p hp hpc f,
    deserialize_regex_doc τ hτ p hp hpc f, ?_⟩
  simp only [mkRegExp, JsRegExp.mk.injEq]
  exact ⟨trivial, hi, hm, hg⟩

/-- Witness for C7: `/ab/gim` and `/ab/mig` produce the same compiled
pattern. -/
theorem c7_regex_flag_order_irrelevant_witness :
    deserialize ['/', 'a', 'b', '/', 'g', 'i', 'm'] [] 5 =
        .ok (.sRegex (mkRegExp ['a', 'b'] ['g', 'i', 'm'])) [] ∧
      deserialize ['/', 'a', 'b', '/', 'm', 'i', 'g'] [] 5 =
        .ok (.sRegex (mkRegExp ['a', 'b'] ['m', 'i', 'g'])) [] ∧
      mkRegExp ['a', 'b'] ['g', 'i', 'm'] = mkRegExp ['a', 'b'] ['m', 'i', 'g'] :=
  c7_regex_flag_order_irrelevant ['a', 'b'] ['g', 'i', 'm'] ['m', 'i', 'g'] 0
    (by decide) (by decide) (by decide) (by decide) (by decide) (by decide)
    (by decide)

/-! ### C4: whitespace between tokens -/

theorem isWS_cases {c : Char} (h : isWS c = true) :
    c = '\r' ∨ c = '\n' ∨ c = '\t' ∨ c = ' ' := by
  simpa [isWS] using h

theorem ws_not_nameCont {c : Char} (h : isWS c = true) : isNameCont c = false := by
  rcases isWS_cases h with rfl | rfl | rfl | rfl <;> decide

theorem ws_not_num {c : Char} (h : isWS c = true) : isNum c = false := by
  rcases isWS_cases h with rfl | rfl | rfl | rfl <;> decide

/-- A whitespace character is none of the non-whitespace characters. -/
theorem ws_ne {c d : Char} (h : isWS c = true) (hd : isWS d = false) : c ≠ d := by
  intro he
  rw [he, hd] at h
  cases h

theorem num_not_ws {d : Char} (hd : isNum d = true) : isWS d = false := by
  cases hws : isWS d with
  | false => rfl
  | true => rw [ws_not_num hws] at hd; cases hd

/-- A digit differs from every non-digit character. -/
theorem isNum_ne {d c : Char} (hd : isNum d = true) (hc : isNum c = false) :
    d ≠ c := by
  intro he
  rw [he, hc] at hd
  cases hd

/-- A whitespace run followed by a delimiter that cannot continue a number:
whatever the head of the combined suffix is, it stops the number lexer. -/
theorem numStop_of_ws_delim {w : List Char} {del : Char} {y : List Char}
    (hw : ∀ c ∈ w, isWS c = true)
    (hdel : isNum del = false ∧ del ≠ 'n' ∧ del ≠ '.' ∧ del ≠ 'e' ∧ del ≠ 'E') :
    ∀ c0 t, w ++ del :: y = c0 :: t →
      isNum c0 = false ∧ c0 ≠ 'n' ∧ c0 ≠ '.' ∧ c0 ≠ 'e' ∧ c0 ≠ 'E' := by
  intro c0 t heq
  cases w with
  | nil =>
    simp only [List.nil_append, List.cons.injEq] at heq
    rw [← heq.1]
    exact hdel
  | cons a w' =>
    simp only [List.cons_append, List.cons.injEq] at heq
    have ha : isWS a = true := hw a (by simp)
    rw [← heq.1]
    exact ⟨ws_not_num ha, ws_ne ha (by decide), ws_ne ha (by decide),
      ws_ne ha (by decide), ws_ne ha (by decide)⟩

/-- `parseNumber` on a single digit whose suffix cannot continue the number:
one digit is consumed and the value is that digit. -/
theorem parseNumber_single_digit {buf : List Char} {pos : Nat} {heap : Heap}
    {d : Char} {x : List Char}
    (hd : isNum d = true) (hdrop : buf.drop pos = d :: x)
    (hstop : ∀ c0 t, x = c0 :: t →
      isNum c0 = false ∧ c0 ≠ 'n' ∧ c0 ≠ '.' ∧ c0 ≠ 'e' ∧ c0 ≠ 'E') :
    parseNumber buf ⟨pos, heap⟩ =
      .ok (.sNum false ⟨digitsVal [d], 0⟩) ⟨pos + 1, heap⟩ := by
  have e0 := getElem_of_drop hdrop
  have hdm : d ≠ '-' := isNum_ne hd (by decide)
  have hdI : d ≠ 'I' := isNum_ne hd (by decide)
  have hx : buf.drop (pos + 1) = x := drop_succ_of_drop hdrop
  cases x with
  | nil =>
    have e1 := getElem_none_of_drop hx
    have hdp : digitsPrefix (buf.drop pos) = [d] := by
      rw [hdrop]; simp [digitsPrefix, hd]
    simp [parseNumber, e0, e1, hdm, hdI, isNumO, hd, hdp, adv, decVal,
      spanDigits, PR.andThen]
  | cons c0 t =>
    obtain ⟨hn0, hnn, hnd, hne, hnE⟩ := hstop c0 t rfl
    have e1 := getElem_of_drop hx
    have hdp : digitsPrefix (buf.drop pos) = [d] := by
      rw [hdrop]; simp [digitsPrefix, hd, hn0]
    simp [parseNumber, e0, e1, hdm, hdI, isNumO, hd, hn0, hnn, hnd, hne, hnE,
      hdp, adv, decVal, spanDigits, PR.andThen]

/-- `parseJson` at a position whose suffix is a whitespace run, a single
digit, and a suffix that cannot continue the number: the whitespace and the
digit are consumed and the value of the digit is returned. -/
theorem parseJson_ws_digit {buf : List Char} {classes : List (List Char)}
    {f pos : Nat} {heap : Heap} {w : List Char} {d : Char} {x : List Char}
    (hw : ∀ c ∈ w, isWS c = true) (hd : isNum d = true)
    (hdrop : buf.drop pos = w ++ d :: x)
    (hstop : ∀ c0 t, x = c0 :: t →
      isNum c0 = false ∧ c0 ≠ 'n' ∧ c0 ≠ '.' ∧ c0 ≠ 'e' ∧ c0 ≠ 'E') :
    parseJson buf classes (f + 1) ⟨pos, heap⟩ =
      .ok (.sNum false ⟨digitsVal [d], 0⟩) ⟨pos + w.length + 1, heap⟩ := by
  have hwh : white buf ⟨pos, heap⟩ = ⟨pos + w.length, heap⟩ :=
    white_eq hdrop hw (wsRun_cons_not (num_not_ws hd))
  have hd2 : buf.drop (pos + w.length) = d :: x := drop_add_of_drop hdrop
  have e0 := getElem_of_drop hd2
  have hne1 : d ≠ '$' := isNum_ne hd (by decide)
  have hne2 : d ≠ '{' := isNum_ne hd (by decide)
  have hne3 : d ≠ '[' := isNum_ne hd (by decide)
  have hne4 : d ≠ '/' := isNum_ne hd (by decide)
  have hne5 : d ≠ '"' := isNum_ne hd (by decide)
  have hnum := @parseNumber_single_digit buf (pos + w.length) heap d x hd hd2 hstop
  simp only [parseJson, hwh, e0, Option.some.injEq, isNumO]
  rw [if_neg hne1, if_neg hne2, if_neg hne3, if_neg hne4, if_neg hne5,
    if_pos (by simp [hd])]
  rw [hnum]

/-- `parseJson` on `Foo` followed by a whitespace character: the class-tag
check `buf[pos] === "{"` is performed immediately after the identifier with no
whitespace skipping, so the whitespace character itself is reported as the
unexpected token. -/
theorem parseJson_classtag_ws (c : Char) (rest : List Char) (f : Nat)
    (heap : Heap) (classes : List (List Char)) (h : isWS c = true) :
    parseJson (['F', 'o', 'o'] ++ c :: rest) classes (f + 1) ⟨0, heap⟩ =
      .err ⟨some c, 3⟩ := by
  have hnp : namePrefix ('o' :: 'o' :: c :: rest) = ['o', 'o'] :=
    @namePrefix_append ['o', 'o'] (c :: rest) (by decide)
      (by simp [namePrefix, ws_not_nameCont h])
  have e3 : ('F' :: 'o' :: 'o' :: c :: rest)[(3 : Nat)]? = some c := by simp
  have hbrace : c ≠ '{' := ws_ne h (by decide)
  have hfw : isWS 'F' = false := by decide
  simp [parseJson, white, wsRun, hfw, isNumO, isNum, parseName, isNameStart,
    hnp, adv, e3, hbrace, mkErr]

/-- Dispatch step: whitespace then `[` enters `parseArray`. -/
theorem parseJson_lbracket {buf : List Char} {classes : List (List Char)}
    {f pos : Nat} {heap : Heap} {w y : List Char}
    (hw : ∀ c ∈ w, isWS c = true) (hdrop : buf.drop pos = w ++ '[' :: y) :
    parseJson buf classes (f + 1) ⟨pos, heap⟩ =
      (parseArray buf classes f ⟨pos + w.length, heap⟩).andThen fun a s1 =>
        .ok (.sPtr a) s1 := by
  have hwh : white buf ⟨pos, heap⟩ = ⟨pos + w.length, heap⟩ :=
    white_eq hdrop hw (wsRun_cons_not (by decide))
  have e := getElem_of_drop (drop_add_of_drop hdrop)
  simp [parseJson, hwh, e]

/-- First-element step of `parseArray`: whitespace then a head that is not
`]` hands over to `parseJson` and then the element loop. -/
theorem parseArray_head {buf : List Char} {classes : List (List Char)}
    {f pos : Nat} {heap : Heap} {w : List Char} {c0 : Char} {y : List Char}
    (hw : ∀ c ∈ w, isWS c = true) (hdrop : buf.drop (pos + 1) = w ++ c0 :: y)
    (hc0ws : isWS c0 = false) (hc0 : c0 ≠ ']') :
    parseArray buf classes (f + 1) ⟨pos, heap⟩ =
      (parseJson buf classes f ⟨pos + 1 + w.length, heap⟩).andThen fun v s1 =>
        arrayLoop buf classes f s1 [v] := by
  have hwh : white buf ⟨pos + 1, heap⟩ = ⟨pos + 1 + w.length, heap⟩ :=
    white_eq hdrop hw (wsRun_cons_not hc0ws)
  have e := getElem_of_drop (drop_add_of_drop hdrop)
  simp [parseArray, adv, hwh, e, hc0]

/-- Comma step of the array element loop. -/
theorem arrayLoop_comma {buf : List Char} {classes : List (List Char)}
    {f pos : Nat} {heap : Heap} {acc : List SVal} {w y : List Char}
    (hw : ∀ c ∈ w, isWS c = true) (hdrop : buf.drop pos = w ++ ',' :: y) :
    arrayLoop buf classes (f + 1) ⟨pos, heap⟩ acc =
      (parseJson buf classes f ⟨pos + w.length + 1, heap⟩).andThen fun v s1 =>
        arrayLoop buf classes f s1 (acc ++ [v]) := by
  have hwh : white buf ⟨pos, heap⟩ = ⟨pos + w.length, heap⟩ :=
    white_eq hdrop hw (wsRun_cons_not (by decide))
  have e := getElem_of_drop (drop_add_of_drop hdrop)
  simp [arrayLoop, adv, hwh, e]

/-- Closing step of the array element loop: whitespace then `]` allocates the
array cell. -/
theorem arrayLoop_close {buf : List Char} {classes : List (List Char)}
    {f pos : Nat} {heap : Heap} {acc : List SVal} {w y : List Char}
    (hw : ∀ c ∈ w, isWS c = true) (hdrop : buf.drop pos = w ++ ']' :: y) :
    arrayLoop buf classes (f + 1) ⟨pos, heap⟩ acc =
      .ok heap.length ⟨pos + w.length + 1, heap ++ [Cell.cArr acc]⟩ := by
  have hwh : white buf ⟨pos, heap⟩ = ⟨pos + w.length, heap⟩ :=
    white_eq hdrop hw (wsRun_cons_not (by decide))
  have e := getElem_of_drop (drop_add_of_drop hdrop)
  simp [arrayLoop, adv, hwh, e, allocCell]

/-- Final step of the statement loop: only whitespace remains, so the loop
stops at the end of the input. -/
theorem stmtLoop_end {buf : List Char} {classes : List (List Char)}
    {f pos : Nat} {heap : Heap} {acc : List SVal} {w : List Char}
    (hw : ∀ c ∈ w, isWS c = true) (hdrop : buf.drop pos = w) :
    stmtLoop buf classes (f + 1) ⟨pos, heap⟩ acc =
      .ok acc ⟨pos + w.length, heap⟩ := by
  have hdrop2 : buf.drop pos = w ++ [] := by simpa using hdrop
  have hwh : white buf ⟨pos, heap⟩ = ⟨pos + w.length, heap⟩ :=
    white_eq hdrop2 hw rfl
  have e := getElem_none_of_drop (drop_add_of_drop hdrop2)
  simp [stmtLoop, hwh, e]

/-- The resolver on a value that is a decimal number: returned unchanged. -/
theorem resolve_sNum (refs : List SVal) (g : Nat) (hh : Heap) (n : Bool)
    (m : DecQ) : resolve refs (g + 1) hh (.sNum n m) = some (hh, .sNum n m) := by
  simp [resolve]

/-- The resolver on a one-cell heap holding a two-number array: both the
indexed pass and the `for...in` pass rewrite each element to itself, and the
pointer is returned. -/
theorem resolve_arr_pair (refs : List SVal) (g : Nat) (n1 n2 : Bool)
    (m1 m2 : DecQ) :
    resolve refs (g + 4) [Cell.cArr [.sNum n1 m1, .sNum n2 m2]] (.sPtr 0) =
      some ([Cell.cArr [.sNum n1 m1, .sNum n2 m2]], .sPtr 0) := by
  rw [show g + 4 = (((g + 1) + 1) + 1) + 1 from rfl]
  simp [resolve, resolveArr, List.getD]

/-- C4 (amended): inserting arbitrary runs of space/tab/CR/LF at the
whitespace-skipped positions between tokens never changes the parsed result —
shown here for every padding of the document `[1,2]` around its brackets,
elements and comma, all of which deserialize to the same array — but NOT
between a class-tag identifier and its `{`: there the parser checks the next
character without skipping whitespace, so any whitespace inserted after the
identifier turns the document into a `SyntaxError` at the end of the identifier,
while the unpadded `Foo{}` parses fine. -/
theorem c4_whitespace_between_tokens :
    (∀ (f : Nat) (w1 w2 w3 w4 w5 w6 : List Char),
        (∀ c ∈ w1, isWS c = true) → (∀ c ∈ w2, isWS c = true) →
        (∀ c ∈ w3, isWS c = true) → (∀ c ∈ w4, isWS c = true) →
        (∀ c ∈ w5, isWS c = true) → (∀ c ∈ w6, isWS c = true) →
        deserialize
            (w1 ++ ('[' :: (w2 ++ ('1' :: (w3 ++ (',' :: (w4 ++ ('2' :: (w5 ++ (']' :: w6))))))))))
            [] (f + 8) =
          .ok (.sPtr 0) [Cell.cArr [.sNum false ⟨1, 0⟩, .sNum false ⟨2, 0⟩]]) ∧
      (∀ (c : Char) (rest : List Char) (f : Nat) (classes : List (List Char)),
          isWS c = true →
          deserialize (['F', 'o', 'o'] ++ c :: rest) classes (f + 1) =
            .err ⟨some c, 3⟩) ∧
      deserialize ['F', 'o', 'o', '{', '}'] [] 20 =
        .ok (.sPtr 0) [Cell.cObj none []] := by
  refine ⟨?_, ?_, by decide⟩
  · intro f w1 w2 w3 w4 w5 w6 h1 h2 h3 h4 h5 h6
    have d0 : (w1 ++ ('[' :: (w2 ++ ('1' :: (w3 ++ (',' :: (w4 ++ ('2' :: (w5 ++ (']' :: w6)))))))))).drop 0 =
        w1 ++ ('[' :: (w2 ++ ('1' :: (w3 ++ (',' :: (w4 ++ ('2' :: (w5 ++ (']' :: w6))))))))) :=
      List.drop_zero _
    have d1 := drop_add_of_drop d0
    have d2 := drop_succ_of_drop d1
    have d3 := drop_add_of_drop d2
    have d4 := drop_succ_of_drop d3
    have d5 := drop_add_of_drop d4
    have d6 := drop_succ_of_drop d5
    have d7 := drop_add_of_drop d6
    have d8 := drop_succ_of_drop d7
    have d9 := drop_add_of_drop d8
    have d10 := drop_succ_of_drop d9
    have harr_head :
        parseArray (w1 ++ ('[' :: (w2 ++ ('1' :: (w3 ++ (',' :: (w4 ++ ('2' :: (w5 ++ (']' :: w6))))))))))
            [] (f + 7) ⟨0 + w1.length, []⟩ =
          (parseJson (w1 ++ ('[' :: (w2 ++ ('1' :: (w3 ++ (',' :: (w4 ++ ('2' :: (w5 ++ (']' :: w6))))))))))
              [] (f + 6) ⟨0 + w1.length + 1 + w2.length, []⟩).andThen fun v s1 =>
            arrayLoop (w1 ++ ('[' :: (w2 ++ ('1' :: (w3 ++ (',' :: (w4 ++ ('2' :: (w5 ++ (']' :: w6))))))))))
              [] (f + 6) s1 [v] :=
      parseArray_head h2 d2 (by decide) (by decide)
    have hpj1 :
        parseJson (w1 ++ ('[' :: (w2 ++ ('1' :: (w3 ++ (',' :: (w4 ++ ('2' :: (w5 ++ (']' :: w6))))))))))
            [] (f + 6) ⟨0 + w1.length + 1 + w2.length, []⟩ =
          .ok (.sNum false ⟨digitsVal ['1'], 0⟩)
            ⟨0 + w1.length + 1 + w2.length + 1, []⟩ :=
      @parseJson_ws_digit
        (w1 ++ ('[' :: (w2 ++ ('1' :: (w3 ++ (',' :: (w4 ++ ('2' :: (w5 ++ (']' :: w6))))))))))
        [] (f + 5) (0 + w1.length + 1 + w2.length) [] []
        '1' (w3 ++ (',' :: (w4 ++ ('2' :: (w5 ++ (']' :: w6))))))
        (by simp) (by decide) d3 (numStop_of_ws_delim h3 (by decide))
    have harr1 :
        arrayLoop (w1 ++ ('[' :: (w2 ++ ('1' :: (w3 ++ (',' :: (w4 ++ ('2' :: (w5 ++ (']' :: w6))))))))))
            [] (f + 6) ⟨0 + w1.length + 1 + w2.length + 1, []⟩
            [.sNum false ⟨digitsVal ['1'], 0⟩] =
          (parseJson (w1 ++ ('[' :: (w2 ++ ('1' :: (w3 ++ (',' :: (w4 ++ ('2' :: (w5 ++ (']' :: w6))))))))))
              [] (f + 5)
              ⟨0 + w1.length + 1 + w2.length + 1 + w3.length + 1, []⟩).andThen
            fun v s1 =>
              arrayLoop
                (w1 ++ ('[' :: (w2 ++ ('1' :: (w3 ++ (',' :: (w4 ++ ('2' :: (w5 ++ (']' :: w6))))))))))
                [] (f + 5) s1 ([.sNum false ⟨digitsVal ['1'], 0⟩] ++ [v]) :=
      arrayLoop_comma h3 d4
    have hpj2 :
        parseJson (w1 ++ ('[' :: (w2 ++ ('1' :: (w3 ++ (',' :: (w4 ++ ('2' :: (w5 ++ (']' :: w6))))))))))
            [] (f + 5) ⟨0 + w1.length + 1 + w2.length + 1 + w3.length + 1, []⟩ =
          .ok (.sNum false ⟨digitsVal ['2'], 0⟩)
            ⟨0 + w1.length + 1 + w2.length + 1 + w3.length + 1 + w4.length + 1, []⟩ :=
      @parseJson_ws_digit
        (w1 ++ ('[' :: (w2 ++ ('1' :: (w3 ++ (',' :: (w4 ++ ('2' :: (w5 ++ (']' :: w6))))))))))
        [] (f + 4) (0 + w1.length + 1 + w2.length + 1 + w3.length + 1) [] w4
        '2' (w5 ++ (']' :: w6))
        h4 (by decide) d6 (numStop_of_ws_delim h5 (by decide))
    have harr2 :
        arrayLoop (w1 ++ ('[' :: (w2 ++ ('1' :: (w3 ++ (',' :: (w4 ++ ('2' :: (w5 ++ (']' :: w6))))))))))
            [] (f + 5)
            ⟨0 + w1.length + 1 + w2.length + 1 + w3.length + 1 + w4.length + 1, []⟩
            [.sNum false ⟨digitsVal ['1'], 0⟩, .sNum false ⟨digitsVal ['2'], 0⟩] =
          .ok 0
            ⟨0 + w1.length + 1 + w2.length + 1 + w3.length + 1 + w4.length + 1 +
                w5.length + 1,
              [Cell.cArr
                [.sNum false ⟨digitsVal ['1'], 0⟩, .sNum false ⟨digitsVal ['2'], 0⟩]]⟩ :=
      arrayLoop_close h5 d8
    have hpj_top :
        parseJson (w1 ++ ('[' :: (w2 ++ ('1' :: (w3 ++ (',' :: (w4 ++ ('2' :: (w5 ++ (']' :: w6))))))))))
            [] (f + 8) ⟨0, []⟩ =
          .ok (.sPtr 0)
            ⟨0 + w1.length + 1 + w2.length + 1 + w3.length + 1 + w4.length + 1 +
                w5.length + 1,
              [Cell.cArr
                [.sNum false ⟨digitsVal ['1'], 0⟩, .sNum false ⟨digitsVal ['2'], 0⟩]]⟩ := by
      have e0 :
          parseJson (w1 ++ ('[' :: (w2 ++ ('1' :: (w3 ++ (',' :: (w4 ++ ('2' :: (w5 ++ (']' :: w6))))))))))
              [] ((f + 7) + 1) ⟨0, []⟩ =
            (parseArray
                (w1 ++ ('[' :: (w2 ++ ('1' :: (w3 ++ (',' :: (w4 ++ ('2' :: (w5 ++ (']' :: w6))))))))))
                [] (f + 7) ⟨0 + w1.length, []⟩).andThen fun a s1 =>
              .ok (.sPtr a) s1 :=
        parseJson_lbracket h1 d0
      rw [show f + 8 = (f + 7) + 1 from rfl, e0, harr_head, hpj1]
      simp only [PR.andThen]
      rw [harr1, hpj2]
      simp only [PR.andThen, List.singleton_append]
      rw [harr2]
    have hstmt :
        parseStatements
            (w1 ++ ('[' :: (w2 ++ ('1' :: (w3 ++ (',' :: (w4 ++ ('2' :: (w5 ++ (']' :: w6))))))))))
            [] (f + 8) ⟨0, []⟩ =
          .ok [.sPtr 0]
            ⟨0 + w1.length + 1 + w2.length + 1 + w3.length + 1 + w4.length + 1 +
                w5.length + 1 + w6.length,
              [Cell.cArr
                [.sNum false ⟨digitsVal ['1'], 0⟩, .sNum false ⟨digitsVal ['2'], 0⟩]]⟩ := by
      simp only [parseStatements]
      rw [hpj_top]
      simp only [PR.andThen]
      exact stmtLoop_end h6 d10
    have hlen :
        (w1 ++ ('[' :: (w2 ++ ('1' :: (w3 ++ (',' :: (w4 ++ ('2' :: (w5 ++ (']' :: w6)))))))))).length =
          0 + w1.length + 1 + w2.length + 1 + w3.length + 1 + w4.length + 1 +
            w5.length + 1 + w6.length := by
      simp only [List.length_append, List.length_cons]
      omega
    have hres :
        resolve [.sPtr 0] (f + 8)
            [Cell.cArr
              [.sNum false ⟨digitsVal ['1'], 0⟩, .sNum false ⟨digitsVal ['2'], 0⟩]]
            (.sPtr 0) =
          some
            ([Cell.cArr
                [.sNum false ⟨digitsVal ['1'], 0⟩, .sNum false ⟨digitsVal ['2'], 0⟩]],
              .sPtr 0) :=
      resolve_arr_pair [.sPtr 0] (f + 4) false false ⟨digitsVal ['1'], 0⟩
        ⟨digitsVal ['2'], 0⟩
    simp only [deserialize]
    rw [hstmt]
    simp only []
    rw [if_pos hlen]
    rw [show ([SVal.sPtr 0]).getD 0 .sUndef = .sPtr 0 from rfl]
    rw [hres]
    decide
  · intro c rest f classes h
    have hpj : parseJson ('F' :: 'o' :: 'o' :: c :: rest) classes (f + 1)
        ⟨0, []⟩ = .err ⟨some c, 3⟩ := parseJson_classtag_ws c rest f [] classes h
    simp [deserialize, parseStatements, hpj, PR.andThen]

/-- Witness for C4: padding `[1,2]` with assorted whitespace parses to the
same array as the unpadded document, and whitespace after a class-tag
identifier is a syntax error. -/
theorem c4_whitespace_between_tokens_witness :
    deserialize [' ', '[', '\t', '1', '\n', ',', '2', ' ', ']', ' '] [] 8 =
        .ok (.sPtr 0) [Cell.cArr [.sNum false ⟨1, 0⟩, .sNum false ⟨2, 0⟩]] ∧
      deserialize ['F', 'o', 'o', ' ', '{', '}'] [] 3 = .err ⟨some ' ', 3⟩ :=
  ⟨c4_whitespace_between_tokens.1 0 [' '] ['\t'] ['\n'] [] [' '] [' ']
      (by decide) (by decide) (by decide) (by decide) (by decide) (by decide),
    c4_whitespace_between_tokens.2.1 ' ' ['{', '}'] 2 [] (by decide)⟩

/-- C4 counterexample: `Foo{}` deserializes to a plain object, but inserting
a single space between the class-tag identifier and its `{` — whitespace
between two tokens — turns the result into a `SyntaxError`, so whitespace
insertion between tokens does change the parsed result. -/
theorem c4_counterexample_classtag_space :
    deserialize ['F', 'o', 'o', '{', '}'] [] 20 =
        .ok (.sPtr 0) [Cell.cObj none []] ∧
      deserialize ['F', 'o', 'o', ' ', '{', '}'] [] 20 = .err ⟨some ' ', 3⟩ := by
  decide

end Superserial
